import Mathlib

/-!
Verification of the `die_parser` crate (src/lib.rs) against its specification.

The parser is embedded shallowly: a Rust `&str` becomes a `List Char`, the
nom combinators become small recursive functions, `u16` values become `Nat`
with an explicit 65535 bound where the source checks it, and the Rust `i32`
modifier becomes `Int`. Fallible functions return `Option` / `Except`
exactly where the source returns `IResult` / `Result`.
-/

namespace DieParser

/-- Holds information about a die roll: struct `Roll` in src/lib.rs. -/
structure Roll where
  number_of_sides : Nat
  number_of_dice : Nat
  modifier : Int
  deriving DecidableEq, Repr

/-- The error taxonomy: enum `RollError` in src/lib.rs. -/
inductive RollError where
  | DieTypeInvalid
  | DiceExceedLimit
  | NoDiceToRoll
  | ParsingError
  deriving DecidableEq, Repr

/-- The whitespace removal step `input.replace(" ", "")`: it removes every
occurrence of the single space character U+0020 and nothing else. -/
def removeSpaces (l : List Char) : List Char := l.filter (fun c => c ≠ ' ')

/-- The numeric value of a run of decimal digits, as `u16::from_str`
accumulates it (leading zeros allowed). -/
def digitsVal (ds : List Char) : Nat := ds.foldl (fun a c => 10 * a + (c.toNat - 48)) 0

/-- fn `parse_numbers`: nom `digit1` (longest nonempty prefix of ASCII digits)
followed by `map_res(_, u16::from_str)`, which fails when there is no digit or
when the value exceeds `u16::MAX` = 65535. -/
def parse_numbers (l : List Char) : Option (List Char × Nat) :=
  let ds := l.takeWhile Char.isDigit
  if ds.isEmpty then none
  else if digitsVal ds ≤ 65535 then some (l.dropWhile Char.isDigit, digitsVal ds)
  else none

/-- fn `parse_simple_roll`: `separated_pair(parse_numbers, char('d'), parse_numbers)`,
yielding the remainder and the pair (number_of_dice, number_of_sides). -/
def parse_simple_roll (l : List Char) : Option (List Char × (Nat × Nat)) :=
  match parse_numbers l with
  | none => none
  | some (r1, nDice) =>
    match r1 with
    | c :: r2 =>
      if c = 'd' then
        match parse_numbers r2 with
        | none => none
        | some (r3, nSides) => some (r3, (nDice, nSides))
      else none
    | [] => none

/-- fns `parse_operator` and `parse_modifier`: the operator alternation tries
the plus tag, then the minus tag, then the empty tag, which always succeeds
consuming nothing; a parsed sign must be followed by `parse_numbers`, and the
empty-operator branch yields modifier 0 with the input untouched. -/
def parse_modifier (l : List Char) : Option (List Char × Int) :=
  match l with
  | c :: r =>
    if c = '+' then
      match parse_numbers r with
      | none => none
      | some (r2, m) => some (r2, (m : Int))
    else if c = '-' then
      match parse_numbers r with
      | none => none
      | some (r2, m) => some (r2, -(m : Int))
    else some (c :: r, 0)
  | [] => some ([], 0)

/-- fn `Roll::parse_modified_roll`: strip spaces, parse the die spec, parse the
modifier, and build the `Roll`; either sub-failure becomes `ParsingError`. -/
def parse_modified_roll (input : List Char) : Except RollError Roll :=
  match parse_simple_roll (removeSpaces input) with
  | none => Except.error RollError.ParsingError
  | some (rem, nd_ns) =>
    match parse_modifier rem with
    | none => Except.error RollError.ParsingError
    | some (_, m) => Except.ok ⟨nd_ns.2, nd_ns.1, m⟩

/-- Bitwise NOT of a `u16` value, as the Rust unary `!` computes it on that
type: for x < 65536 it is 65535 - x. -/
def not16 (x : Nat) : Nat := 65535 - x % 65536

/-- The die-type match of fn `check_roll_validity`: the eight allowed face
counts fall through, everything else is invalid. -/
def dieTypeOk (s : Nat) : Bool :=
  match s with
  | 2 | 4 | 6 | 8 | 10 | 12 | 20 | 100 => true
  | _ => false

/-- fn `Roll::check_roll_validity`: die type first; then the source guard
`number_of_dice > max_dice && !max_dice != 0`, where `!max_dice` is the
bitwise NOT of the `u16`, so the second conjunct is `max_dice != 65535`;
then the lower bound `number_of_dice <= 0`. -/
def check_roll_validity (r : Roll) (max_dice : Nat) : Except RollError Unit :=
  if dieTypeOk r.number_of_sides = false then Except.error RollError.DieTypeInvalid
  else if r.number_of_dice > max_dice ∧ not16 max_dice ≠ 0 then
    Except.error RollError.DiceExceedLimit
  else if r.number_of_dice ≤ 0 then Except.error RollError.NoDiceToRoll
  else Except.ok ()

/-- fn `Roll::parse_roll`: structural parse, then validity with the fixed
limit 100. -/
def parse_roll (input : List Char) : Except RollError Roll :=
  match parse_modified_roll input with
  | Except.error e => Except.error e
  | Except.ok result =>
    match check_roll_validity result 100 with
    | Except.ok _ => Except.ok result
    | Except.error e => Except.error e

/-- fn `Roll::parse_roll_with_limit`: structural parse, then validity with the
caller-supplied limit. -/
def parse_roll_with_limit (input : List Char) (max_dice : Nat) : Except RollError Roll :=
  match parse_modified_roll input with
  | Except.error e => Except.error e
  | Except.ok result =>
    match check_roll_validity result max_dice with
    | Except.ok _ => Except.ok result
    | Except.error e => Except.error e

/-- The appended text is empty or starts with a character that is not an
ASCII digit, so it cannot extend a digit run. -/
def noDigitHead (t : List Char) : Bool :=
  match t with
  | [] => true
  | c :: _ => !c.isDigit

/-- The appended text is empty or starts with a character that is neither an
ASCII digit nor a sign, so it can neither extend a digit run nor start a
modifier. -/
def neutralHead (t : List Char) : Bool :=
  match t with
  | [] => true
  | c :: _ => !c.isDigit && !decide (c = '+') && !decide (c = '-')

theorem removeSpaces_append (a b : List Char) :
    removeSpaces (a ++ b) = removeSpaces a ++ removeSpaces b := by
  simp [removeSpaces]

theorem takeWhile_append_stop (p : Char → Bool) :
    ∀ (l t : List Char), l.dropWhile p ≠ [] →
      (l ++ t).takeWhile p = l.takeWhile p ∧ (l ++ t).dropWhile p = l.dropWhile p ++ t
  | [], _, h => absurd rfl h
  | c :: l, t, h => by
    by_cases hc : p c = true
    · have hd : l.dropWhile p ≠ [] := by
        simpa [List.dropWhile_cons, hc] using h
      have ih := takeWhile_append_stop p l t hd
      simp [List.takeWhile_cons, List.dropWhile_cons, hc, ih.1, ih.2]
    · simp [List.takeWhile_cons, List.dropWhile_cons, hc]

theorem takeWhile_append_all (p : Char → Bool) :
    ∀ (l t : List Char), l.dropWhile p = [] →
      (l ++ t).takeWhile p = l ++ t.takeWhile p ∧ (l ++ t).dropWhile p = t.dropWhile p
  | [], _, _ => ⟨rfl, rfl⟩
  | c :: l, t, h => by
    by_cases hc : p c = true
    · have hd : l.dropWhile p = [] := by
        simpa [List.dropWhile_cons, hc] using h
      have ih := takeWhile_append_all p l t hd
      simp [List.takeWhile_cons, List.dropWhile_cons, hc, ih.1, ih.2]
    · exfalso
      simp [List.dropWhile_cons, hc] at h

theorem takeWhile_of_dropWhile_nil (p : Char → Bool) (l : List Char)
    (h : l.dropWhile p = []) : l.takeWhile p = l := by
  have := List.takeWhile_append_dropWhile (p := p) (l := l)
  rwa [h, List.append_nil] at this

theorem noDigitHead_spec (t : List Char) (h : noDigitHead t = true) :
    t.takeWhile Char.isDigit = [] ∧ t.dropWhile Char.isDigit = t := by
  cases t with
  | nil => exact ⟨rfl, rfl⟩
  | cons c r =>
    have hc : c.isDigit = false := by simpa [noDigitHead] using h
    simp [List.takeWhile_cons, List.dropWhile_cons, hc]

theorem neutralHead_noDigit (t : List Char) (h : neutralHead t = true) :
    noDigitHead t = true := by
  cases t with
  | nil => rfl
  | cons c r =>
    simp only [neutralHead, Bool.and_eq_true, Bool.not_eq_true'] at h
    simp [noDigitHead, h.1.1]

theorem neutralHead_spec (c : Char) (r : List Char)
    (h : neutralHead (c :: r) = true) :
    c.isDigit = false ∧ c ≠ '+' ∧ c ≠ '-' := by
  simp only [neutralHead, Bool.and_eq_true, Bool.not_eq_true',
    decide_eq_false_iff_not] at h
  exact ⟨h.1.1, h.1.2, h.2⟩

theorem parse_numbers_eq (l : List Char) :
    parse_numbers l =
      if (l.takeWhile Char.isDigit).isEmpty then none
      else if digitsVal (l.takeWhile Char.isDigit) ≤ 65535 then
        some (l.dropWhile Char.isDigit, digitsVal (l.takeWhile Char.isDigit))
      else none := rfl

theorem parse_numbers_append (l t r : List Char) (v : Nat)
    (hn : parse_numbers l = some (r, v)) (ht : noDigitHead t = true) :
    parse_numbers (l ++ t) = some (r ++ t, v) := by
  rw [parse_numbers_eq] at hn
  by_cases h1 : (l.takeWhile Char.isDigit).isEmpty
  · rw [if_pos h1] at hn; exact absurd hn (by simp)
  · rw [if_neg h1] at hn
    by_cases h2 : digitsVal (l.takeWhile Char.isDigit) ≤ 65535
    · rw [if_pos h2] at hn
      have hr : l.dropWhile Char.isDigit = r ∧ digitsVal (l.takeWhile Char.isDigit) = v := by
        simpa using hn
      cases hdw : l.dropWhile Char.isDigit with
      | cons c cs =>
        have hstop := takeWhile_append_stop Char.isDigit l t (by rw [hdw]; simp)
        rw [parse_numbers_eq, hstop.1, hstop.2, if_neg h1, if_pos h2, hr.1, hr.2]
      | nil =>
        have hall := takeWhile_append_all Char.isDigit l t hdw
        have htw := takeWhile_of_dropWhile_nil Char.isDigit l hdw
        have hts := noDigitHead_spec t ht
        rw [parse_numbers_eq, hall.1, hts.1, hall.2, hts.2, List.append_nil, ← htw,
          if_neg h1, if_pos h2, hr.2]
        rw [hdw] at hr
        rw [← hr.1]
        simp
    · rw [if_neg h2] at hn; exact absurd hn (by simp)

theorem parse_simple_roll_append (l t r : List Char) (nd ns : Nat)
    (h : parse_simple_roll l = some (r, (nd, ns))) (ht : noDigitHead t = true) :
    parse_simple_roll (l ++ t) = some (r ++ t, (nd, ns)) := by
  unfold parse_simple_roll at h ⊢
  cases hp : parse_numbers l with
  | none => rw [hp] at h; simp at h
  | some pr =>
    obtain ⟨r1, n1⟩ := pr
    rw [hp] at h
    cases r1 with
    | nil => simp at h
    | cons c r2 =>
      simp only [] at h
      by_cases hc : c = 'd'
      · rw [if_pos hc] at h
        cases hp2 : parse_numbers r2 with
        | none => rw [hp2] at h; simp at h
        | some pr2 =>
          obtain ⟨r3, n3⟩ := pr2
          rw [hp2] at h
          have hout := parse_numbers_append l t (c :: r2) n1 hp ht
          have hin := parse_numbers_append r2 t r3 n3 hp2 ht
          rw [List.cons_append] at hout
          rw [hout]
          simp only [if_pos hc, hin]
          simpa using h
      · rw [if_neg hc] at h; simp at h

theorem parse_modifier_nil : parse_modifier [] = some ([], 0) := rfl

theorem parse_modifier_plus (r : List Char) :
    parse_modifier ('+' :: r) =
      match parse_numbers r with
      | none => none
      | some (r2, m) => some (r2, (m : Int)) := rfl

theorem parse_modifier_minus (r : List Char) :
    parse_modifier ('-' :: r) =
      match parse_numbers r with
      | none => none
      | some (r2, m) => some (r2, -(m : Int)) := rfl

theorem parse_modifier_other (c : Char) (r : List Char) (h1 : c ≠ '+') (h2 : c ≠ '-') :
    parse_modifier (c :: r) = some (c :: r, 0) := by
  simp [parse_modifier, h1, h2]

theorem parse_modifier_append (l t r2 : List Char) (m : Int)
    (h : parse_modifier l = some (r2, m)) (ht : neutralHead t = true) :
    ∃ r3, parse_modifier (l ++ t) = some (r3, m) := by
  cases l with
  | nil =>
    rw [parse_modifier_nil] at h
    have hm : m = 0 := by simpa using (congrArg (fun o => (Option.map Prod.snd o).getD 1) h).symm
    subst hm
    show ∃ r3, parse_modifier t = some (r3, 0)
    cases t with
    | nil => exact ⟨[], parse_modifier_nil⟩
    | cons c cs =>
      obtain ⟨_, h2, h3⟩ := neutralHead_spec c cs ht
      exact ⟨c :: cs, parse_modifier_other c cs h2 h3⟩
  | cons c cs =>
    by_cases hplus : c = '+'
    · subst hplus
      rw [parse_modifier_plus] at h
      cases hp : parse_numbers cs with
      | none => rw [hp] at h; simp at h
      | some pr =>
        obtain ⟨ra, va⟩ := pr
        rw [hp] at h
        have hh : ra = r2 ∧ (va : Int) = m := by simpa using h
        have hext := parse_numbers_append cs t ra va hp (neutralHead_noDigit t ht)
        refine ⟨ra ++ t, ?_⟩
        rw [List.cons_append, parse_modifier_plus, hext]
        show some (ra ++ t, (va : Int)) = some (ra ++ t, m)
        rw [hh.2]
    · by_cases hminus : c = '-'
      · subst hminus
        rw [parse_modifier_minus] at h
        cases hp : parse_numbers cs with
        | none => rw [hp] at h; simp at h
        | some pr =>
          obtain ⟨ra, va⟩ := pr
          rw [hp] at h
          have hh : ra = r2 ∧ -(va : Int) = m := by simpa using h
          have hext := parse_numbers_append cs t ra va hp (neutralHead_noDigit t ht)
          refine ⟨ra ++ t, ?_⟩
          rw [List.cons_append, parse_modifier_minus, hext]
          show some (ra ++ t, -(va : Int)) = some (ra ++ t, m)
          rw [hh.2]
      · rw [parse_modifier_other c cs hplus hminus] at h
        have hm : m = 0 := by simpa using (congrArg (fun o => (Option.map Prod.snd o).getD 1) h).symm
        subst hm
        refine ⟨c :: (cs ++ t), ?_⟩
        rw [List.cons_append, parse_modifier_other c (cs ++ t) hplus hminus]

theorem parse_modified_roll_append (s t : List Char) (r : Roll)
    (h : parse_modified_roll s = Except.ok r)
    (ht : neutralHead (removeSpaces t) = true) :
    parse_modified_roll (s ++ t) = Except.ok r := by
  unfold parse_modified_roll at h ⊢
  rw [removeSpaces_append]
  cases hp : parse_simple_roll (removeSpaces s) with
  | none => simp only [hp] at h; exact absurd h (by simp)
  | some pr =>
    obtain ⟨rem, nd, ns⟩ := pr
    simp only [hp] at h
    cases hm : parse_modifier rem with
    | none => simp only [hm] at h; exact absurd h (by simp)
    | some mm =>
      obtain ⟨mr, mv⟩ := mm
      simp only [hm] at h
      have hs := parse_simple_roll_append (removeSpaces s) (removeSpaces t) rem nd ns hp
        (neutralHead_noDigit _ ht)
      obtain ⟨mr2, hm2⟩ := parse_modifier_append rem (removeSpaces t) mr mv hm ht
      simp only [hs, hm2]
      exact h

theorem parse_numbers_le (l r : List Char) (v : Nat)
    (h : parse_numbers l = some (r, v)) : v ≤ 65535 := by
  rw [parse_numbers_eq] at h
  by_cases h1 : (l.takeWhile Char.isDigit).isEmpty
  · rw [if_pos h1] at h; exact absurd h (by simp)
  · rw [if_neg h1] at h
    by_cases h2 : digitsVal (l.takeWhile Char.isDigit) ≤ 65535
    · rw [if_pos h2] at h
      obtain ⟨-, hv⟩ : l.dropWhile Char.isDigit = r ∧
          digitsVal (l.takeWhile Char.isDigit) = v := by simpa using h
      exact hv ▸ h2
    · rw [if_neg h2] at h; exact absurd h (by simp)

theorem parse_modifier_bounds (l r : List Char) (m : Int)
    (h : parse_modifier l = some (r, m)) : -65535 ≤ m ∧ m ≤ 65535 := by
  cases l with
  | nil =>
    rw [parse_modifier_nil] at h
    have hm : m = 0 := by
      simpa using (congrArg (fun o => (Option.map Prod.snd o).getD 1) h).symm
    subst hm
    exact ⟨by decide, by decide⟩
  | cons c cs =>
    by_cases hplus : c = '+'
    · subst hplus
      rw [parse_modifier_plus] at h
      cases hp : parse_numbers cs with
      | none => rw [hp] at h; simp at h
      | some pr =>
        obtain ⟨ra, va⟩ := pr
        rw [hp] at h
        have hh : ra = r ∧ (va : Int) = m := by simpa using h
        have hv := parse_numbers_le cs ra va hp
        rw [← hh.2]
        constructor <;> omega
    · by_cases hminus : c = '-'
      · subst hminus
        rw [parse_modifier_minus] at h
        cases hp : parse_numbers cs with
        | none => rw [hp] at h; simp at h
        | some pr =>
          obtain ⟨ra, va⟩ := pr
          rw [hp] at h
          have hh : ra = r ∧ -(va : Int) = m := by simpa using h
          have hv := parse_numbers_le cs ra va hp
          rw [← hh.2]
          constructor <;> omega
      · rw [parse_modifier_other c cs hplus hminus] at h
        have hm : m = 0 := by
          simpa using (congrArg (fun o => (Option.map Prod.snd o).getD 1) h).symm
        subst hm
        exact ⟨by decide, by decide⟩

theorem parse_roll_with_limit_ok (input : List Char) (md : Nat) (r : Roll)
    (h : parse_roll_with_limit input md = Except.ok r) :
    parse_modified_roll input = Except.ok r := by
  unfold parse_roll_with_limit at h
  cases hp : parse_modified_roll input with
  | error e => simp only [hp] at h; exact absurd h (by simp)
  | ok r2 =>
    simp only [hp] at h
    cases hc : check_roll_validity r2 md with
    | ok u => simp only [hc] at h; exact h
    | error e => simp only [hc] at h; exact absurd h (by simp)

/-- Claim C1: the specification says that with max_dice = 0 the ceiling check
never fires, so parsing 101d20 with limit 0 succeeds with Roll 20 101 0. The
code disagrees: its guard applies the Rust bitwise NOT to max_dice, so with
limit 0 the guard fires for every positive dice count and the call returns
DiceExceedLimit. This theorem evaluates the embedded code at the failing
input. -/
theorem C1_limit_zero_eval :
    parse_roll_with_limit "101d20".data 0 = Except.error RollError.DiceExceedLimit := rfl

/-- Claim C2 counterexample: not all whitespace is removed before parsing - a
tab character inside the input makes parse_roll fail with ParsingError, while
the same input without the tab succeeds. -/
theorem C2_counterexample :
    parse_roll "4\td20".data = Except.error RollError.ParsingError ∧
    parse_roll "4d20".data = Except.ok ⟨20, 4, 0⟩ := ⟨rfl, rfl⟩

/-- Claim C2 (amended): only the space character U+0020 is removed from the
input before any other processing, so inserting a space anywhere never
changes the result of parse_roll or parse_roll_with_limit; other whitespace
is kept and can change the result. -/
theorem C2_space_insertion (u v : List Char) (md : Nat) :
    parse_roll (u ++ ' ' :: v) = parse_roll (u ++ v) ∧
    parse_roll_with_limit (u ++ ' ' :: v) md = parse_roll_with_limit (u ++ v) md := by
  have h : removeSpaces (u ++ ' ' :: v) = removeSpaces (u ++ v) := by
    simp [removeSpaces]
  have hm : parse_modified_roll (u ++ ' ' :: v) = parse_modified_roll (u ++ v) := by
    unfold parse_modified_roll
    rw [h]
  constructor
  · unfold parse_roll
    rw [hm]
  · unfold parse_roll_with_limit
    rw [hm]

/-- Claim C3: the claim (and the doc example on RollError::ParsingError in the
source) says parse_roll of 4d2invalid_characters+5 is Err(ParsingError); the
code instead parses 4d2, accepts the missing sign through the
always-succeeding empty operator alternative, ignores the rest, and returns
Ok with 4 two-sided dice and modifier 0. This theorem evaluates the embedded
code at that input. -/
theorem C3_garbage_eval :
    parse_roll "4d2invalid_characters+5".data = Except.ok ⟨2, 4, 0⟩ := rfl

/-- Claim C4 counterexample: appending the single digit 0 after the complete
well-formed input 4d20+5 changes the parsed modifier from 5 to 50, so
appending arbitrary trailing text can change the result. -/
theorem C4_counterexample :
    parse_roll ("4d20+5".data ++ "0".data) = Except.ok ⟨20, 4, 50⟩ ∧
    parse_roll "4d20+5".data = Except.ok ⟨20, 4, 5⟩ := ⟨rfl, rfl⟩

/-- Claim C4 (amended): appending trailing text after a structurally
well-formed input changes neither the structural parse nor the result of
parse_roll, provided the appended text, after space removal, is empty or
starts with a character that is neither an ASCII digit nor a sign, so that
it can neither extend a digit run nor start a modifier. -/
theorem C4_trailing_ok (s t : List Char) (r : Roll)
    (h : parse_modified_roll s = Except.ok r)
    (ht : neutralHead (removeSpaces t) = true) :
    parse_modified_roll (s ++ t) = Except.ok r ∧ parse_roll (s ++ t) = parse_roll s := by
  have hmod := parse_modified_roll_append s t r h ht
  refine ⟨hmod, ?_⟩
  unfold parse_roll
  rw [h, hmod]

theorem C4_witness :
    parse_modified_roll ("4d20+5".data ++ " trailing garbage!".data) = Except.ok ⟨20, 4, 5⟩ ∧
    parse_roll ("4d20+5".data ++ " trailing garbage!".data) = parse_roll "4d20+5".data :=
  C4_trailing_ok "4d20+5".data " trailing garbage!".data ⟨20, 4, 5⟩ rfl rfl

/-- Claim C5: the specification says a well-formed input whose face count is
allowed parses successfully whenever the ceiling is 0 (unbounded); for input
1d20 with ceiling 0 the code instead reports DiceExceedLimit, because its
guard applies the Rust bitwise NOT to max_dice. This theorem evaluates the
embedded code at the failing input. -/
theorem C5_wellformed_eval :
    parse_roll_with_limit "1d20".data 0 = Except.error RollError.DiceExceedLimit := rfl

/-- Claim C6: the validity checks run in the fixed order die type, then
ceiling, then lower bound, the first failing check reporting the single
error; in particular 0d5 and 1d50 give DieTypeInvalid and 0d20 gives
NoDiceToRoll. -/
theorem C6_check_order :
    parse_roll "0d5".data = Except.error RollError.DieTypeInvalid ∧
    parse_roll "1d50".data = Except.error RollError.DieTypeInvalid ∧
    parse_roll "0d20".data = Except.error RollError.NoDiceToRoll ∧
    (∀ (r : Roll) (md : Nat), dieTypeOk r.number_of_sides = false →
      check_roll_validity r md = Except.error RollError.DieTypeInvalid) ∧
    (∀ (r : Roll) (md : Nat), dieTypeOk r.number_of_sides = true →
      r.number_of_dice > md → not16 md ≠ 0 →
      check_roll_validity r md = Except.error RollError.DiceExceedLimit) ∧
    (∀ (r : Roll) (md : Nat), dieTypeOk r.number_of_sides = true →
      ¬(r.number_of_dice > md ∧ not16 md ≠ 0) → r.number_of_dice = 0 →
      check_roll_validity r md = Except.error RollError.NoDiceToRoll) := by
  refine ⟨rfl, rfl, rfl, ?_, ?_, ?_⟩
  · intro r md hs
    unfold check_roll_validity
    rw [if_pos hs]
  · intro r md hs hd hm
    unfold check_roll_validity
    rw [if_neg (by simp [hs]), if_pos ⟨hd, hm⟩]
  · intro r md hs hnot hz
    unfold check_roll_validity
    rw [if_neg (by simp [hs]), if_neg hnot, if_pos (by omega)]

theorem C6_witness :
    check_roll_validity ⟨7, 0, 0⟩ 50 = Except.error RollError.DieTypeInvalid ∧
    check_roll_validity ⟨20, 60, 0⟩ 50 = Except.error RollError.DiceExceedLimit ∧
    check_roll_validity ⟨20, 0, 0⟩ 50 = Except.error RollError.NoDiceToRoll :=
  ⟨C6_check_order.2.2.2.1 ⟨7, 0, 0⟩ 50 (by decide),
   C6_check_order.2.2.2.2.1 ⟨20, 60, 0⟩ 50 (by decide) (by decide) (by decide),
   C6_check_order.2.2.2.2.2 ⟨20, 0, 0⟩ 50 (by decide) (by decide) rfl⟩

/-- Claim C7: after the face-count digits, an explicit sign must be
immediately followed by digits that parse as an unsigned 16-bit integer,
otherwise the whole parse fails with ParsingError; if no sign is present the
modifier is 0, nothing more is consumed, and no error is raised. -/
theorem C7_sign_rules :
    (∀ (c : Char) (rest : List Char), c = '+' ∨ c = '-' →
      parse_numbers rest = none → parse_modifier (c :: rest) = none) ∧
    (∀ (l : List Char), l.head? ≠ some '+' → l.head? ≠ some '-' →
      parse_modifier l = some (l, 0)) ∧
    (∀ (input rem : List Char) (nd ns : Nat),
      parse_simple_roll (removeSpaces input) = some (rem, (nd, ns)) →
      parse_modifier rem = none →
      parse_modified_roll input = Except.error RollError.ParsingError) := by
  refine ⟨?_, ?_, ?_⟩
  · rintro c rest (rfl | rfl) hn
    · rw [parse_modifier_plus, hn]
    · rw [parse_modifier_minus, hn]
  · intro l h1 h2
    cases l with
    | nil => exact parse_modifier_nil
    | cons c cs =>
      exact parse_modifier_other c cs (by simpa using h1) (by simpa using h2)
  · intro input rem nd ns hp hm
    unfold parse_modified_roll
    simp only [hp, hm]

theorem C7_witness :
    parse_modifier ('+' :: 'x' :: []) = none ∧
    parse_modifier ('x' :: []) = some ('x' :: [], 0) ∧
    parse_modified_roll "4d20+x".data = Except.error RollError.ParsingError :=
  ⟨C7_sign_rules.1 '+' ('x' :: []) (Or.inl rfl) rfl,
   C7_sign_rules.2.1 ('x' :: []) (by decide) (by decide),
   C7_sign_rules.2.2 "4d20+x".data ('+' :: 'x' :: []) 4 20 rfl rfl⟩

/-- Claim C8: with a nonzero ceiling, a valid die type and a dice count
exactly equal to the ceiling pass validation - the ceiling comparison is
strict, with no off-by-one rejection. -/
theorem C8_ceiling_exact (r : Roll) (md : Nat) (hm : md ≠ 0)
    (hs : dieTypeOk r.number_of_sides = true) (hd : r.number_of_dice = md) :
    check_roll_validity r md = Except.ok () := by
  unfold check_roll_validity
  rw [if_neg (by simp [hs]),
    if_neg (show ¬(r.number_of_dice > md ∧ not16 md ≠ 0) from fun hc => by
      rw [hd] at hc; exact lt_irrefl md hc.1),
    if_neg (by omega)]

theorem C8_witness : check_roll_validity ⟨20, 10, 0⟩ 10 = Except.ok () :=
  C8_ceiling_exact ⟨20, 10, 0⟩ 10 (by decide) (by decide) rfl

/-- Claim C9: parse_roll is exactly parse_roll_with_limit with the ceiling
fixed at 100, on every input. -/
theorem C9_default_limit (input : List Char) :
    parse_roll input = parse_roll_with_limit input 100 := rfl

/-- Claim C10: every Roll returned successfully by parse_roll or
parse_roll_with_limit has its modifier in the range -65535 to 65535, because
the magnitude is parsed as an unsigned 16-bit integer before the cast and the
optional negation. -/
theorem C10_modifier_bounds (input : List Char) (md : Nat) (r : Roll) :
    (parse_roll input = Except.ok r → -65535 ≤ r.modifier ∧ r.modifier ≤ 65535) ∧
    (parse_roll_with_limit input md = Except.ok r →
      -65535 ≤ r.modifier ∧ r.modifier ≤ 65535) := by
  have key : parse_modified_roll input = Except.ok r →
      -65535 ≤ r.modifier ∧ r.modifier ≤ 65535 := by
    intro h
    unfold parse_modified_roll at h
    cases hp : parse_simple_roll (removeSpaces input) with
    | none => simp only [hp] at h; exact absurd h (by simp)
    | some pr =>
      obtain ⟨rem, nd, ns⟩ := pr
      simp only [hp] at h
      cases hm : parse_modifier rem with
      | none => simp only [hm] at h; exact absurd h (by simp)
      | some mm =>
        obtain ⟨mr, mv⟩ := mm
        simp only [hm] at h
        have hb := parse_modifier_bounds rem mr mv hm
        have h2 : (⟨ns, nd, mv⟩ : Roll) = r := by simpa using h
        rw [← h2]
        exact hb
  exact ⟨fun h => key (parse_roll_with_limit_ok input 100 r h),
         fun h => key (parse_roll_with_limit_ok input md r h)⟩

theorem C10_witness :
    -65535 ≤ (Roll.mk 6 2 (-7)).modifier ∧ (Roll.mk 6 2 (-7)).modifier ≤ 65535 :=
  (C10_modifier_bounds "2d6-7".data 50 ⟨6, 2, -7⟩).2 rfl

end DieParser
